import Mathlib

/-!
Shallow embedding of the cron_dsl crate (FrancoisGib/cron_dsl): the field
expression model of src/value.rs (CronValue: verify, matches, min_value,
next_value) and the schedule type of src/task.rs (CronTask: verify, matches,
try_next_occurrence, next_occurrence).

Modelling conventions:
* u8 ordinals become Nat.  Every ValueKind (Day, Month, Number) is converted
  to its u8 before any use in verify, matches or min_value in the source, so
  ValueKind is collapsed to that Nat.
* Rust Range(start..end) is kept as the pair of its bounds; the source's
  matches treats the end inclusively (r.start <= value && value <= r.end).
* Vec of CronValue is a CronList, a list type mutually inductive with
  CronValue so that all operations are structural recursions the kernel can
  evaluate.
* u8 modulo panics on a zero divisor in Rust; Res models an evaluation that
  can panic: Res.crash is a panic, Res.val a normal result.  Short-circuit
  evaluation of && and of iterator any follows the source.
* chrono is modelled by a plain proleptic Gregorian calendar at a fixed
  offset: DateTime carries year, month (1-12), day, hour, minute, second;
  NaiveDate::from_ymd_opt is validDate; weekday is Sakamoto's method mapped
  to chrono's numbering (Weekday as u8: Monday = 0 .. Sunday = 6);
  Local.from_local_datetime(..).single() always succeeds at a fixed offset;
  DateTime comparison is lexicographic.
* The unbounded loop of try_next_occurrence is embedded as a step function
  stepOnce plus a fuel-indexed driver go: go returns none when the fuel is
  spent before the loop returns, and some of the loop's answer otherwise.
  The path field of CronTask is an opaque payload never read by the core
  operations and is omitted.
-/

/-- Result of evaluating Rust code that can panic: crash models a panic
(here: u8 modulo by zero), val a normal return. -/
inductive Res (α : Type) where
  | crash : Res α
  | val : α → Res α
deriving DecidableEq

mutual
/-- The CronValue enum of src/value.rs, with ValueKind collapsed to its u8
and Vec represented by the mutually inductive CronList. -/
inductive CronValue where
  | range : Nat → Nat → CronValue
  | value : Nat → CronValue
  | list : CronList → CronValue
  | interval : CronValue → Nat → CronValue
  | all : CronValue

/-- A Vec of CronValue. -/
inductive CronList where
  | nil : CronList
  | cons : CronValue → CronList → CronList
end

mutual
/-- CronValue::matches of src/value.rs.  The Interval arm dispatches on the
base exactly as the source's inner match does; a zero step reaches the u8
modulo and crashes. -/
def CronValue.matches : CronValue → Nat → Res Bool
  | .range lo hi, v => .val (decide (lo ≤ v) && decide (v ≤ hi))
  | .value u, v => .val (u == v)
  | .list l, v => CronList.matchesAny l v
  | .interval base s, v => CronValue.stepped base s v
  | .all, _ => .val true

/-- Iterator::any over a list of CronValue, short-circuiting like the
source's cron_values.iter().any. -/
def CronList.matchesAny : CronList → Nat → Res Bool
  | .nil, _ => .val false
  | .cons c r, v =>
    match CronValue.matches c v with
    | .crash => .crash
    | .val true => .val true
    | .val false => CronList.matchesAny r v

/-- The inner match of CronValue::matches for Interval(base, step): the
match on base.as_ref() of src/value.rs lines 234-247. -/
def CronValue.stepped : CronValue → Nat → Nat → Res Bool
  | .all, s, v => if s == 0 then .crash else .val (v % s == 0)
  | .range lo hi, s, v =>
    if decide (v < lo) || decide (hi < v) then .val false
    else if s == 0 then .crash else .val ((v - lo) % s == 0)
  | .value u, s, v =>
    if v == u then (if s == 0 then .crash else .val (v % s == 0))
    else .val false
  | .list l, s, v => CronList.steppedAny l s v
  | .interval _ _, _, _ => .val false

/-- The list arm of the Interval match: any item such that
Interval(item, step) matches, short-circuiting. -/
def CronList.steppedAny : CronList → Nat → Nat → Res Bool
  | .nil, _, _ => .val false
  | .cons c r, s, v =>
    match CronValue.stepped c s v with
    | .crash => .crash
    | .val true => .val true
    | .val false => CronList.steppedAny r s v
end

mutual
/-- CronValue::verify of src/value.rs (lines 194-227), as the Bool
is-Ok of its Result: the single error CronError::InvalidCronValue carries
no data, so Ok(()) is true and Err is false. -/
def CronValue.verify : CronValue → Nat → Nat → Bool
  | .range lo hi, mn, mx => decide (lo < hi) && decide (mn ≤ lo) && decide (hi ≤ mx)
  | .interval _ s, _, mx => decide (s < mx)
  | .value u, _, mx => decide (u < mx)
  | .list l, mn, mx => CronList.verifyAll l mn mx
  | .all, _, _ => true

/-- The fold over a list in CronValue::verify: the result is Ok exactly when
every element verifies. -/
def CronList.verifyAll : CronList → Nat → Nat → Bool
  | .nil, _, _ => true
  | .cons c r, mn, mx => CronValue.verify c mn mx && CronList.verifyAll r mn mx
end

/-- Minimum of two optional values, as Iterator::min over the collected
Some elements combines them. -/
def optMin : Option Nat → Option Nat → Option Nat
  | none, o => o
  | some a, none => some a
  | some a, some b => some (min a b)

mutual
/-- CronValue::min_value of src/value.rs (lines 252-260).  The Interval arm
maps v to v - v % step over the base's minimum, crashing on a zero step. -/
def CronValue.min_value : CronValue → Res (Option Nat)
  | .value u => .val (some u)
  | .range lo _ => .val (some lo)
  | .interval base s =>
    match CronValue.min_value base with
    | .crash => .crash
    | .val none => .val none
    | .val (some m) => if s == 0 then .crash else .val (some (m - m % s))
  | .list l => CronList.minAll l
  | .all => .val (some 0)

/-- list.iter().filter_map(min_value).min(): evaluates min_value on every
element in order (crashing at the first panicking one) and takes the least
Some. -/
def CronList.minAll : CronList → Res (Option Nat)
  | .nil => .val none
  | .cons c r =>
    match CronValue.min_value c with
    | .crash => .crash
    | .val o =>
      match CronList.minAll r with
      | .crash => .crash
      | .val o2 => .val (optMin o o2)
end

/-- The scan loop of CronValue::next_value: k remaining candidates starting
at cur. -/
def CronValue.nvGo (c : CronValue) : Nat → Nat → Res (Option Nat)
  | _, 0 => .val none
  | cur, k+1 =>
    match c.matches cur with
    | .crash => .crash
    | .val true => .val (some cur)
    | .val false => CronValue.nvGo c (cur + 1) k

/-- CronValue::next_value of src/value.rs (lines 262-269): linear forward
scan over current..=max returning the first matching value. -/
def CronValue.next_value (c : CronValue) (cur mx : Nat) : Res (Option Nat) :=
  CronValue.nvGo c cur (mx + 1 - cur)

mutual
/-- Whether every Interval step occurring in the expression is nonzero;
such expressions never reach the modulo-by-zero panic. -/
def CronValue.noZeroStep : CronValue → Bool
  | .range _ _ => true
  | .value _ => true
  | .list l => CronList.noZeroStepAll l
  | .interval base s => (s != 0) && CronValue.noZeroStep base
  | .all => true

/-- noZeroStep for every element of a list. -/
def CronList.noZeroStepAll : CronList → Bool
  | .nil => true
  | .cons c r => CronValue.noZeroStep c && CronList.noZeroStepAll r
end

/-- The Gregorian leap-year rule, as chrono uses for NaiveDate. -/
def isLeap (y : Int) : Bool :=
  Int.emod y 4 == 0 && (Int.emod y 100 != 0 || Int.emod y 400 == 0)

/-- Number of days of a month in the proleptic Gregorian calendar (0 for a
month number outside 1..12). -/
def daysInMonth (y : Int) (m : Nat) : Nat :=
  match m with
  | 1 => 31
  | 2 => if isLeap y then 29 else 28
  | 3 => 31
  | 4 => 30
  | 5 => 31
  | 6 => 30
  | 7 => 31
  | 8 => 31
  | 9 => 30
  | 10 => 31
  | 11 => 30
  | 12 => 31
  | _ => 0

/-- Whether NaiveDate::from_ymd_opt(y, m, d) is Some. -/
def validDate (y : Int) (m d : Nat) : Bool :=
  decide (1 ≤ m) && decide (m ≤ 12) && decide (1 ≤ d) && decide (d ≤ daysInMonth y m)

/-- Sakamoto month offsets for the weekday computation. -/
def weekdayOffset : Nat → Int
  | 1 => 0
  | 2 => 3
  | 3 => 2
  | 4 => 5
  | 5 => 0
  | 6 => 3
  | 7 => 5
  | 8 => 1
  | 9 => 4
  | 10 => 6
  | 11 => 2
  | 12 => 4
  | _ => 0

/-- Weekday of a proleptic Gregorian date in chrono's numbering
(Weekday as u8: Monday = 0 .. Sunday = 6), by Sakamoto's method. -/
def weekday (y : Int) (m d : Nat) : Nat :=
  let yy : Int := if m < 3 then y - 1 else y
  let w : Int :=
    Int.emod (yy + Int.ediv yy 4 - Int.ediv yy 100 + Int.ediv yy 400 + weekdayOffset m + d) 7
  (Int.emod (w + 6) 7).toNat

/-- A DateTime under Local at a fixed offset: the calendar components chrono
exposes (year, month 1-12, day, hour, minute, second). -/
structure DateTime where
  year : Int
  month : Nat
  day : Nat
  hour : Nat
  minute : Nat
  second : Nat
deriving DecidableEq

/-- Strict comparison a < b of two DateTime values: at a fixed offset the
instant order of chrono's DateTime agrees with lexicographic component
order. -/
def DateTime.lt (a b : DateTime) : Bool :=
  decide (a.year < b.year) ||
    (a.year == b.year &&
      (decide (a.month < b.month) ||
        (a.month == b.month &&
          (decide (a.day < b.day) ||
            (a.day == b.day &&
              (decide (a.hour < b.hour) ||
                (a.hour == b.hour &&
                  (decide (a.minute < b.minute) ||
                    (a.minute == b.minute && decide (a.second < b.second))))))))))

/-- CronTask of src/task.rs: the five field expressions.  The path field is
an opaque payload never read by verify, matches or the occurrence search and
is omitted. -/
structure CronTask where
  minute : CronValue
  hour : CronValue
  month_day : CronValue
  month : CronValue
  week_day : CronValue

/-- CronTask::verify of src/task.rs (lines 50-58): the five per-field bound
checks, sequenced with the ? operator (all must pass). -/
def CronTask.verify (t : CronTask) : Bool :=
  CronValue.verify t.minute 0 60 && CronValue.verify t.hour 0 24 &&
    CronValue.verify t.month_day 0 31 && CronValue.verify t.month 0 12 &&
    CronValue.verify t.week_day 0 6

/-- CronTask::matches of src/task.rs (lines 60-66): all five fields must
match the timestamp's components, in the source's && order (week_day,
month_day, hour, month, minute), short-circuiting and propagating panics. -/
def CronTask.matches (t : CronTask) (d : DateTime) : Res Bool :=
  match CronValue.matches t.week_day (weekday d.year d.month d.day) with
  | .crash => .crash
  | .val false => .val false
  | .val true =>
    match CronValue.matches t.month_day d.day with
    | .crash => .crash
    | .val false => .val false
    | .val true =>
      match CronValue.matches t.hour d.hour with
      | .crash => .crash
      | .val false => .val false
      | .val true =>
        match CronValue.matches t.month d.month with
        | .crash => .crash
        | .val false => .val false
        | .val true => CronValue.matches t.minute d.minute

/-- Outcome of the day-scanning for loop of try_next_occurrence
(src/task.rs lines 94-103): crash is a panic, abort is the ? on a None
from_ymd_opt (the whole function returns None), found d is a break with
found_day = Some(d), notFound is loop exhaustion. -/
inductive DayScan where
  | crash : DayScan
  | abort : DayScan
  | found : Nat → DayScan
  | notFound : DayScan
deriving DecidableEq

/-- The day-scanning loop with k remaining iterations starting at day d:
for d in day..=30 { let wd = from_ymd_opt(y, m, d)?.weekday();
if month_day.matches(d) && week_day.matches(wd) { break } }. -/
def findDayGo (t : CronTask) (y : Int) (m : Nat) : Nat → Nat → DayScan
  | _, 0 => .notFound
  | d, k+1 =>
    if validDate y m d then
      match CronValue.matches t.month_day d with
      | .crash => .crash
      | .val false => findDayGo t y m (d + 1) k
      | .val true =>
        match CronValue.matches t.week_day (weekday y m d) with
        | .crash => .crash
        | .val false => findDayGo t y m (d + 1) k
        | .val true => .found d
    else .abort

/-- The day scan from day d: the for loop runs over d..=30, hence 31 - d
iterations. -/
def findDay (t : CronTask) (y : Int) (m d : Nat) : DayScan :=
  findDayGo t y m d (31 - d)

/-- The mutable loop state of try_next_occurrence: the year, month, day,
hour and min variables. -/
structure SearchState where
  year : Int
  month : Nat
  day : Nat
  hour : Nat
  min : Nat
deriving DecidableEq

/-- One iteration of the loop of try_next_occurrence: either the loop
returns (ret), panics (crash), or continues with an updated state (next). -/
inductive LoopStep where
  | ret : Option DateTime → LoopStep
  | crash : LoopStep
  | next : SearchState → LoopStep

/-- The body of the loop of CronTask::try_next_occurrence (src/task.rs
lines 81-146), one iteration from state s with the search origin t0. -/
def stepOnce (t : CronTask) (t0 : DateTime) (s : SearchState) : LoopStep :=
  match CronValue.next_value t.month s.month 12 with
  | .crash => .crash
  | .val none =>
    match CronValue.min_value t.month with
    | .crash => .crash
    | .val none => .ret none
    | .val (some mv) => .next ⟨s.year + 1, mv, 1, 0, 0⟩
  | .val (some m) =>
    match findDay t s.year m s.day with
    | .crash => .crash
    | .abort => .ret none
    | .notFound => .next ⟨s.year, m + 1, 1, 0, 0⟩
    | .found d =>
      match CronValue.next_value t.hour s.hour 23 with
      | .crash => .crash
      | .val none => .next ⟨s.year, m, d + 1, 0, 0⟩
      | .val (some h) =>
        match CronValue.next_value t.minute s.min 59 with
        | .crash => .crash
        | .val none => .next ⟨s.year, m, d, h + 1, 0⟩
        | .val (some mi) =>
          if validDate s.year m d && decide (h ≤ 23) && decide (mi ≤ 59) then
            if DateTime.lt t0 ⟨s.year, m, d, h, mi, 0⟩ then
              .ret (some ⟨s.year, m, d, h, mi, 0⟩)
            else .next ⟨s.year, m, d, h, mi + 1⟩
          else .next ⟨s.year, m, d, h, mi + 1⟩

/-- Final outcome of the search loop: crash is a panic, out r is a return
of r. -/
inductive SearchOut where
  | crash : SearchOut
  | out : Option DateTime → SearchOut
deriving DecidableEq

/-- Fuel-indexed driver of the unbounded loop of try_next_occurrence:
go fuel s is none when fuel iterations did not reach a return, and some of
the loop's outcome otherwise. -/
def go (t : CronTask) (t0 : DateTime) : Nat → SearchState → Option SearchOut
  | 0, _ => none
  | n+1, s =>
    match stepOnce t t0 s with
    | .ret r => some (.out r)
    | .crash => some .crash
    | .next s2 => go t t0 n s2

/-- CronTask::try_next_occurrence of src/task.rs (lines 74-147), run for
fuel loop iterations from the components of t0. -/
def try_next_occurrence (t : CronTask) (t0 : DateTime) (fuel : Nat) : Option SearchOut :=
  go t t0 fuel ⟨t0.year, t0.month, t0.day, t0.hour, t0.minute⟩

/-- CronTask::next_occurrence of src/task.rs (lines 68-72): it calls
try_next_occurrence on the current time and unwraps with expect, so a None
from the search becomes a panic. -/
def next_occurrence (t : CronTask) (now : DateTime) (fuel : Nat) : Option (Res DateTime) :=
  (try_next_occurrence t now fuel).map fun r =>
    match r with
    | .out (some d) => .val d
    | .out none => .crash
    | .crash => .crash

/-- A schedule with every field Any (built by make_simple_task in the
crate's tests). -/
def allTask : CronTask := ⟨.all, .all, .all, .all, .all⟩

/-- Schedule minute=Single(5), hour=Single(14), other fields Any. -/
def minuteHourTask : CronTask := ⟨.value 5, .value 14, .all, .all, .all⟩

/-- Schedule whose day-of-month matches only 31 yet passes build:
day-of-month Stepped(Single(31), 1) (the validator checks only the step),
all other fields Any. -/
def day31Task : CronTask := ⟨.all, .all, .interval (.value 31) 1, .all, .all⟩

/-- The schedule of the February scenario: day-of-month Single(31), month
Single(2), other fields Any. -/
def feb31Task : CronTask := ⟨.all, .all, .value 31, .value 2, .all⟩

/-- Schedule whose minute field is Stepped(Any, 0): a zero step. -/
def zeroStepTask : CronTask := ⟨.interval .all 0, .all, .all, .all, .all⟩

/-- Every Interval step in all five fields of the schedule is nonzero. -/
def CronTask.noZeroSteps (t : CronTask) : Bool :=
  CronValue.noZeroStep t.minute && CronValue.noZeroStep t.hour &&
    CronValue.noZeroStep t.month_day && CronValue.noZeroStep t.month &&
    CronValue.noZeroStep t.week_day

mutual
/-- Reference matching semantics, written from the claim's words: Any
matches every v; Single(u) matches exactly v = u; Range(lo,hi) matches
exactly lo <= v <= hi; List matches when some item matches (an empty list
matches nothing); Stepped defers to steppedSpec.  The claim leaves
Stepped-over-Stepped unspecified (the spec calls it an invalid
construction); the code returns false there and so does this reference. -/
def matchesSpec : CronValue → Nat → Bool
  | .all, _ => true
  | .value u, v => v == u
  | .range lo hi, v => decide (lo ≤ v) && decide (v ≤ hi)
  | .list l, v => anySpec l v
  | .interval base s, v => steppedSpec base s v

/-- Some item of the list matches. -/
def anySpec : CronList → Nat → Bool
  | .nil, _ => false
  | .cons c r, v => matchesSpec c v || anySpec r v

/-- Reference semantics of Stepped(base, step) per the claim:
Stepped(Any,k) matches exactly when v % k = 0; Stepped(Range(lo,hi),k)
exactly when v is in [lo,hi] and (v-lo) % k = 0; Stepped(Single(u),k)
exactly when v = u and v % k = 0; Stepped over a List exactly when
Stepped(item,k) matches for some item. -/
def steppedSpec : CronValue → Nat → Nat → Bool
  | .all, s, v => v % s == 0
  | .range lo hi, s, v => decide (lo ≤ v) && decide (v ≤ hi) && ((v - lo) % s == 0)
  | .value u, s, v => (v == u) && (v % s == 0)
  | .list l, s, v => steppedAnySpec l s v
  | .interval _ _, _, _ => false

/-- Stepped(item, k) matches for some item of the list. -/
def steppedAnySpec : CronList → Nat → Nat → Bool
  | .nil, _, _ => false
  | .cons c r, s, v => steppedSpec c s v || steppedAnySpec r s v
end

mutual
/-- Validator characterization written from the amended claim's words: a
literal value passes exactly when it is below the field's exclusive
maximum (no minimum check); a Range(lo,hi) passes exactly when lo < hi,
lo is at least the minimum and hi is at most the maximum; a Stepped passes
exactly when its step is below the maximum, its base unchecked; a List
passes when every member passes; Any always passes. -/
def fieldOk : CronValue → Nat → Nat → Bool
  | .value v, _, mx => decide (v < mx)
  | .range lo hi, mn, mx => decide (lo < hi) && decide (mn ≤ lo) && decide (hi ≤ mx)
  | .interval _ s, _, mx => decide (s < mx)
  | .list l, mn, mx => fieldsOk l mn mx
  | .all, _, _ => true

/-- Every member of the list passes. -/
def fieldsOk : CronList → Nat → Nat → Bool
  | .nil, _, _ => true
  | .cons c r, mn, mx => fieldOk c mn mx && fieldsOk r mn mx
end

/-! Helper lemmas. -/

theorem natBeqComm (a b : Nat) : (a == b) = (b == a) := by
  rcases eq_or_ne a b with h | h
  · subst h; rfl
  · rw [beq_eq_false_iff_ne.mpr h, beq_eq_false_iff_ne.mpr (Ne.symm h)]

theorem nvGo_some_matches (c : CronValue) :
    ∀ (k cur r : Nat), CronValue.nvGo c cur k = .val (some r) →
      c.matches r = .val true := by
  intro k
  induction k with
  | zero => intro cur r h; simp [CronValue.nvGo] at h
  | succ n ih =>
    intro cur r h
    unfold CronValue.nvGo at h
    cases hm : c.matches cur with
    | crash => rw [hm] at h; simp at h
    | val b =>
      cases b
      · rw [hm] at h
        exact ih (cur + 1) r h
      · rw [hm] at h
        simp at h
        subst h
        exact hm

theorem next_value_some_matches (c : CronValue) (cur mx r : Nat)
    (h : c.next_value cur mx = .val (some r)) : c.matches r = .val true :=
  nvGo_some_matches c (mx + 1 - cur) cur r h

theorem nvGo_none_of (c : CronValue) :
    ∀ (k cur : Nat), (∀ v, cur ≤ v → v < cur + k → c.matches v = .val false) →
      CronValue.nvGo c cur k = .val none := by
  intro k
  induction k with
  | zero => intro cur _; rfl
  | succ n ih =>
    intro cur hall
    have hc : c.matches cur = .val false := hall cur le_rfl (by omega)
    unfold CronValue.nvGo
    rw [hc]
    exact ih (cur + 1) fun v h1 h2 => hall v (by omega) (by omega)

theorem next_value_none_of (c : CronValue) (cur mx : Nat)
    (hall : ∀ v, cur ≤ v → v ≤ mx → c.matches v = .val false) :
    c.next_value cur mx = .val none := by
  apply nvGo_none_of
  intro v h1 h2
  apply hall v h1
  omega

theorem findDayGo_found (t : CronTask) (y : Int) (m : Nat) :
    ∀ (k d r : Nat), findDayGo t y m d k = .found r →
      CronValue.matches t.month_day r = .val true ∧
        CronValue.matches t.week_day (weekday y m r) = .val true := by
  intro k
  induction k with
  | zero => intro d r h; simp [findDayGo] at h
  | succ n ih =>
    intro d r h
    unfold findDayGo at h
    by_cases hv : validDate y m d = true
    · rw [if_pos hv] at h
      cases hmd : CronValue.matches t.month_day d with
      | crash => rw [hmd] at h; simp at h
      | val b =>
        cases b
        · rw [hmd] at h
          exact ih (d + 1) r h
        · rw [hmd] at h
          cases hwd : CronValue.matches t.week_day (weekday y m d) with
          | crash => rw [hwd] at h; simp at h
          | val b2 =>
            cases b2
            · rw [hwd] at h
              exact ih (d + 1) r h
            · rw [hwd] at h
              simp at h
              subst h
              exact ⟨hmd, hwd⟩
    · rw [if_neg hv] at h
      simp at h

theorem findDay_found (t : CronTask) (y : Int) (m d r : Nat)
    (h : findDay t y m d = .found r) :
    CronValue.matches t.month_day r = .val true ∧
      CronValue.matches t.week_day (weekday y m r) = .val true :=
  findDayGo_found t y m (31 - d) d r h

theorem go_ret (t : CronTask) (t0 : DateTime) (s : SearchState)
    (r : Option DateTime) (n : Nat) (h : stepOnce t t0 s = .ret r) :
    go t t0 (n + 1) s = some (.out r) := by
  simp [go, h]

theorem go_crash (t : CronTask) (t0 : DateTime) (s : SearchState) (n : Nat)
    (h : stepOnce t t0 s = .crash) : go t t0 (n + 1) s = some .crash := by
  simp [go, h]

theorem go_next (t : CronTask) (t0 : DateTime) (s s2 : SearchState) (n : Nat)
    (h : stepOnce t t0 s = .next s2) : go t t0 (n + 1) s = go t t0 n s2 := by
  simp [go, h]

theorem stepOnce_ret_some (t : CronTask) (t0 : DateTime) (s : SearchState)
    (d : DateTime) (hstep : stepOnce t t0 s = .ret (some d)) :
    DateTime.lt t0 d = true ∧ d.second = 0 ∧ CronTask.matches t d = .val true := by
  unfold stepOnce at hstep
  cases hm : CronValue.next_value t.month s.month 12 with
  | crash => simp only [hm] at hstep; simp at hstep
  | val om =>
    cases om with
    | none =>
      simp only [hm] at hstep
      cases hmin : CronValue.min_value t.month with
      | crash => simp only [hmin] at hstep; simp at hstep
      | val o =>
        cases o with
        | none => simp only [hmin] at hstep; simp at hstep
        | some mv => simp only [hmin] at hstep; simp at hstep
    | some m =>
      simp only [hm] at hstep
      cases hd : findDay t s.year m s.day with
      | crash => simp only [hd] at hstep; simp at hstep
      | abort => simp only [hd] at hstep; simp at hstep
      | notFound => simp only [hd] at hstep; simp at hstep
      | found dd =>
        simp only [hd] at hstep
        cases hho : CronValue.next_value t.hour s.hour 23 with
        | crash => simp only [hho] at hstep; simp at hstep
        | val oh =>
          cases oh with
          | none => simp only [hho] at hstep; simp at hstep
          | some hr =>
            simp only [hho] at hstep
            cases hmo : CronValue.next_value t.minute s.min 59 with
            | crash => simp only [hmo] at hstep; simp at hstep
            | val omi =>
              cases omi with
              | none => simp only [hmo] at hstep; simp at hstep
              | some mi =>
                simp only [hmo] at hstep
                by_cases hvd :
                    (validDate s.year m dd && decide (hr ≤ 23) && decide (mi ≤ 59)) = true
                · rw [if_pos hvd] at hstep
                  by_cases hlt : DateTime.lt t0 ⟨s.year, m, dd, hr, mi, 0⟩ = true
                  · rw [if_pos hlt] at hstep
                    simp at hstep
                    subst hstep
                    refine ⟨hlt, rfl, ?_⟩
                    have f1 := next_value_some_matches _ _ _ _ hm
                    have f2 := findDay_found t s.year m s.day dd hd
                    have f3 := next_value_some_matches _ _ _ _ hho
                    have f4 := next_value_some_matches _ _ _ _ hmo
                    simp [CronTask.matches, f1, f2.1, f2.2, f3, f4]
                  · rw [if_neg hlt] at hstep; simp at hstep
                · rw [if_neg hvd] at hstep; simp at hstep

mutual
theorem matches_eq_spec : ∀ (c : CronValue) (v : Nat), c.noZeroStep = true →
    c.matches v = .val (matchesSpec c v)
  | .all, _, _ => rfl
  | .value u, v, _ => by
    simp only [CronValue.matches, matchesSpec, natBeqComm u v]
  | .range _ _, _, _ => rfl
  | .list l, v, h => by
    have hl : CronList.noZeroStepAll l = true := h
    simp only [CronValue.matches, matchesSpec]
    exact matchesAny_eq_spec l v hl
  | .interval base s, v, h => by
    have h2 : ((s != 0) && CronValue.noZeroStep base) = true := h
    rw [Bool.and_eq_true] at h2
    have hs : s ≠ 0 := by simpa using h2.1
    simp only [CronValue.matches, matchesSpec]
    exact stepped_eq_spec base s v hs h2.2
termination_by c _ _ => sizeOf c

theorem matchesAny_eq_spec : ∀ (l : CronList) (v : Nat),
    CronList.noZeroStepAll l = true →
    CronList.matchesAny l v = .val (anySpec l v)
  | .nil, _, _ => rfl
  | .cons c r, v, h => by
    have h2 : (CronValue.noZeroStep c && CronList.noZeroStepAll r) = true := h
    rw [Bool.and_eq_true] at h2
    rw [CronList.matchesAny, matches_eq_spec c v h2.1]
    cases hcv : matchesSpec c v
    · simp only [anySpec, hcv, Bool.false_or]
      exact matchesAny_eq_spec r v h2.2
    · simp [anySpec, hcv]
termination_by l _ _ => sizeOf l

theorem stepped_eq_spec : ∀ (base : CronValue) (s v : Nat), s ≠ 0 →
    base.noZeroStep = true →
    CronValue.stepped base s v = .val (steppedSpec base s v)
  | .all, s, v, hs, _ => by
    simp [CronValue.stepped, steppedSpec, hs]
  | .range lo hi, s, v, hs, _ => by
    simp only [CronValue.stepped, steppedSpec]
    by_cases h1 : v < lo
    · have hno : ¬ lo ≤ v := by omega
      simp [h1, hno]
    · by_cases h2 : hi < v
      · have hno : ¬ v ≤ hi := by omega
        simp [h1, h2, hno]
      · have e1 : lo ≤ v := by omega
        have e2 : v ≤ hi := by omega
        simp [h1, h2, e1, e2, hs]
  | .value u, s, v, hs, _ => by
    simp only [CronValue.stepped, steppedSpec]
    by_cases h : v = u
    · subst h
      simp [hs]
    · simp [h]
  | .list l, s, v, hs, h => by
    simp only [CronValue.stepped, steppedSpec]
    exact steppedAny_eq_spec l s v hs h
  | .interval _ _, _, _, _, _ => rfl
termination_by base _ _ _ _ => sizeOf base

theorem steppedAny_eq_spec : ∀ (l : CronList) (s v : Nat), s ≠ 0 →
    CronList.noZeroStepAll l = true →
    CronList.steppedAny l s v = .val (steppedAnySpec l s v)
  | .nil, _, _, _, _ => rfl
  | .cons c r, s, v, hs, h => by
    have h2 : (CronValue.noZeroStep c && CronList.noZeroStepAll r) = true := h
    rw [Bool.and_eq_true] at h2
    rw [CronList.steppedAny, stepped_eq_spec c s v hs h2.1]
    cases hcv : steppedSpec c s v
    · simp only [steppedAnySpec, hcv, Bool.false_or]
      exact steppedAny_eq_spec r s v hs h2.2
    · simp [steppedAnySpec, hcv]
termination_by l _ _ _ _ => sizeOf l
end

mutual
theorem verify_eq_fieldOk : ∀ (c : CronValue) (mn mx : Nat),
    CronValue.verify c mn mx = fieldOk c mn mx
  | .value _, _, _ => rfl
  | .range _ _, _, _ => rfl
  | .interval _ _, _, _ => rfl
  | .all, _, _ => rfl
  | .list l, mn, mx => by
    simp only [CronValue.verify, fieldOk]
    exact verifyAll_eq_fieldsOk l mn mx
termination_by c _ _ => sizeOf c

theorem verifyAll_eq_fieldsOk : ∀ (l : CronList) (mn mx : Nat),
    CronList.verifyAll l mn mx = fieldsOk l mn mx
  | .nil, _, _ => rfl
  | .cons c r, mn, mx => by
    rw [CronList.verifyAll, fieldsOk, verify_eq_fieldOk c mn mx,
      verifyAll_eq_fieldsOk r mn mx]
termination_by l _ _ => sizeOf l
end

theorem optMin_left (o : Option Nat) (m : Nat) :
    ∃ m2, optMin (some m) o = some m2 ∧ m2 ≤ m := by
  cases o with
  | none => exact ⟨m, rfl, le_rfl⟩
  | some b => exact ⟨min m b, rfl, Nat.min_le_left m b⟩

theorem optMin_right (o : Option Nat) (m : Nat) :
    ∃ m2, optMin o (some m) = some m2 ∧ m2 ≤ m := by
  cases o with
  | none => exact ⟨m, rfl, le_rfl⟩
  | some a => exact ⟨min a m, rfl, Nat.min_le_right a m⟩

mutual
theorem min_value_noCrash : ∀ (c : CronValue), c.noZeroStep = true →
    ∃ o, c.min_value = Res.val o
  | .value u, _ => ⟨some u, rfl⟩
  | .range lo _, _ => ⟨some lo, rfl⟩
  | .all, _ => ⟨some 0, rfl⟩
  | .list l, h => by
    have hl : CronList.noZeroStepAll l = true := h
    simp only [CronValue.min_value]
    exact minAll_noCrash l hl
  | .interval base s, h => by
    have h2 : ((s != 0) && CronValue.noZeroStep base) = true := h
    rw [Bool.and_eq_true] at h2
    have hs : s ≠ 0 := by simpa using h2.1
    have hsf : (s == 0) = false := beq_eq_false_iff_ne.mpr hs
    obtain ⟨o, ho⟩ := min_value_noCrash base h2.2
    cases o with
    | none => exact ⟨none, by simp [CronValue.min_value, ho]⟩
    | some m => exact ⟨some (m - m % s), by simp [CronValue.min_value, ho, hsf]⟩
termination_by c _ => sizeOf c

theorem minAll_noCrash : ∀ (l : CronList), CronList.noZeroStepAll l = true →
    ∃ o, CronList.minAll l = Res.val o
  | .nil, _ => ⟨none, rfl⟩
  | .cons c r, h => by
    have h2 : (CronValue.noZeroStep c && CronList.noZeroStepAll r) = true := h
    rw [Bool.and_eq_true] at h2
    obtain ⟨o1, ho1⟩ := min_value_noCrash c h2.1
    obtain ⟨o2, ho2⟩ := minAll_noCrash r h2.2
    exact ⟨optMin o1 o2, by simp [CronList.minAll, ho1, ho2]⟩
termination_by l _ => sizeOf l
end

mutual
theorem matches_min_le : ∀ (c : CronValue) (v : Nat), c.noZeroStep = true →
    c.matches v = .val true → ∃ m, c.min_value = .val (some m) ∧ m ≤ v
  | .all, v, _, _ => ⟨0, rfl, Nat.zero_le v⟩
  | .value u, v, _, h => by
    have he : (u == v) = true := by
      have : Res.val (α := Bool) (u == v) = .val true := h
      simpa using this
    have : u = v := by simpa using he
    exact ⟨u, rfl, le_of_eq this⟩
  | .range lo hi, v, _, h => by
    have he : (decide (lo ≤ v) && decide (v ≤ hi)) = true := by
      have : Res.val (α := Bool) (decide (lo ≤ v) && decide (v ≤ hi)) = .val true := h
      simpa using this
    rw [Bool.and_eq_true] at he
    exact ⟨lo, rfl, of_decide_eq_true he.1⟩
  | .list l, v, hz, h => by
    have hl : CronList.noZeroStepAll l = true := hz
    have hm : CronList.matchesAny l v = .val true := h
    simp only [CronValue.min_value]
    exact any_min_le l v hl hm
  | .interval base s, v, hz, h => by
    have h2 : ((s != 0) && CronValue.noZeroStep base) = true := hz
    rw [Bool.and_eq_true] at h2
    have hs : s ≠ 0 := by simpa using h2.1
    have hsf : (s == 0) = false := beq_eq_false_iff_ne.mpr hs
    have hst : CronValue.stepped base s v = .val true := h
    obtain ⟨m, hm, hle⟩ := stepped_min_le base s v h2.2 hs hst
    refine ⟨m - m % s, ?_, le_trans (Nat.sub_le m (m % s)) hle⟩
    simp [CronValue.min_value, hm, hsf]
termination_by c _ _ _ => sizeOf c

theorem any_min_le : ∀ (l : CronList) (v : Nat), CronList.noZeroStepAll l = true →
    CronList.matchesAny l v = .val true →
    ∃ m, CronList.minAll l = .val (some m) ∧ m ≤ v
  | .nil, v, _, h => by simp [CronList.matchesAny] at h
  | .cons c r, v, hz, h => by
    have h2 : (CronValue.noZeroStep c && CronList.noZeroStepAll r) = true := hz
    rw [Bool.and_eq_true] at h2
    rw [CronList.matchesAny] at h
    cases hc : CronValue.matches c v with
    | crash => simp [hc] at h
    | val b =>
      cases b
      · simp only [hc] at h
        obtain ⟨m2, hm2, hle2⟩ := any_min_le r v h2.2 h
        obtain ⟨o1, ho1⟩ := min_value_noCrash c h2.1
        obtain ⟨m3, hm3, hle3⟩ := optMin_right o1 m2
        exact ⟨m3, by simp [CronList.minAll, ho1, hm2, hm3], le_trans hle3 hle2⟩
      · obtain ⟨m1, hm1, hle1⟩ := matches_min_le c v h2.1 hc
        obtain ⟨o2, ho2⟩ := minAll_noCrash r h2.2
        obtain ⟨m3, hm3, hle3⟩ := optMin_left o2 m1
        exact ⟨m3, by simp [CronList.minAll, hm1, ho2, hm3], le_trans hle3 hle1⟩
termination_by l _ _ _ => sizeOf l

theorem stepped_min_le : ∀ (base : CronValue) (s v : Nat), base.noZeroStep = true →
    s ≠ 0 → CronValue.stepped base s v = .val true →
    ∃ m, base.min_value = .val (some m) ∧ m ≤ v
  | .all, _, v, _, _, _ => ⟨0, rfl, Nat.zero_le v⟩
  | .range lo hi, s, v, _, _, h => by
    simp only [CronValue.stepped] at h
    by_cases h1 : (decide (v < lo) || decide (hi < v)) = true
    · rw [if_pos h1] at h
      simp at h
    · rw [if_neg h1] at h
      have hlo : lo ≤ v := by
        simp only [Bool.or_eq_true, decide_eq_true_eq] at h1
        omega
      exact ⟨lo, rfl, hlo⟩
  | .value u, s, v, _, _, h => by
    simp only [CronValue.stepped] at h
    by_cases he : (v == u) = true
    · have : v = u := by simpa using he
      exact ⟨u, rfl, le_of_eq this.symm⟩
    · rw [if_neg ?_] at h
      · simp at h
      · simpa using he
  | .list l, s, v, hz, hs, h => by
    have hl : CronList.noZeroStepAll l = true := hz
    have hm : CronList.steppedAny l s v = .val true := h
    simp only [CronValue.min_value]
    exact steppedAny_min_le l s v hl hs hm
  | .interval _ _, _, _, _, _, h => by simp [CronValue.stepped] at h
termination_by base _ _ _ _ _ => sizeOf base

theorem steppedAny_min_le : ∀ (l : CronList) (s v : Nat),
    CronList.noZeroStepAll l = true → s ≠ 0 →
    CronList.steppedAny l s v = .val true →
    ∃ m, CronList.minAll l = .val (some m) ∧ m ≤ v
  | .nil, _, v, _, _, h => by simp [CronList.steppedAny] at h
  | .cons c r, s, v, hz, hs, h => by
    have h2 : (CronValue.noZeroStep c && CronList.noZeroStepAll r) = true := hz
    rw [Bool.and_eq_true] at h2
    rw [CronList.steppedAny] at h
    cases hc : CronValue.stepped c s v with
    | crash => simp [hc] at h
    | val b =>
      cases b
      · simp only [hc] at h
        obtain ⟨m2, hm2, hle2⟩ := steppedAny_min_le r s v h2.2 hs h
        obtain ⟨o1, ho1⟩ := min_value_noCrash c h2.1
        obtain ⟨m3, hm3, hle3⟩ := optMin_right o1 m2
        exact ⟨m3, by simp [CronList.minAll, ho1, hm2, hm3], le_trans hle3 hle2⟩
      · obtain ⟨m1, hm1, hle1⟩ := stepped_min_le c s v h2.1 hs hc
        obtain ⟨o2, ho2⟩ := minAll_noCrash r h2.2
        obtain ⟨m3, hm3, hle3⟩ := optMin_left o2 m1
        exact ⟨m3, by simp [CronList.minAll, hm1, ho2, hm3], le_trans hle3 hle1⟩
termination_by l _ _ _ _ _ => sizeOf l
end

theorem interval_min_eq (base : CronValue) (s m : Nat) (hs : s ≠ 0)
    (h : base.min_value = .val (some m)) :
    CronValue.min_value (.interval base s) = .val (some (m - m % s)) := by
  simp [CronValue.min_value, h, beq_eq_false_iff_ne.mpr hs]

theorem go_out_some (t : CronTask) (t0 : DateTime) :
    ∀ (n : Nat) (s : SearchState) (d : DateTime),
      go t t0 n s = some (.out (some d)) →
      DateTime.lt t0 d = true ∧ d.second = 0 ∧ CronTask.matches t d = .val true := by
  intro n
  induction n with
  | zero => intro s d h; simp [go] at h
  | succ n ih =>
    intro s d h
    cases hs : stepOnce t t0 s with
    | ret r =>
      rw [go_ret t t0 s r n hs] at h
      simp at h
      subst h
      exact stepOnce_ret_some t t0 s d hs
    | crash => rw [go_crash t t0 s n hs] at h; simp at h
    | next s2 =>
      rw [go_next t t0 s s2 n hs] at h
      exact ih s2 d h

theorem feb31Task_month : feb31Task.month = .value 2 := rfl

theorem feb31Task_month_day : feb31Task.month_day = .value 31 := rfl

theorem daysInMonth_feb_le (y : Int) : daysInMonth y 2 ≤ 29 := by
  simp only [daysInMonth]
  cases isLeap y <;> simp

theorem feb_scan_abort : ∀ (k : Nat) (d : Nat) (y : Int), d ≤ 30 → d + k = 31 →
    findDayGo feb31Task y 2 d k = .abort := by
  intro k
  induction k with
  | zero => intro d y h1 h2; omega
  | succ n ih =>
    intro d y h1 h2
    unfold findDayGo
    by_cases hv : validDate y 2 d = true
    · rw [if_pos hv]
      have hd29 : d ≤ 29 := by
        have hfe := daysInMonth_feb_le y
        simp only [validDate, Bool.and_eq_true, decide_eq_true_eq] at hv
        omega
      have hmd : CronValue.matches feb31Task.month_day d = .val false := by
        rw [feb31Task_month_day]
        simp only [CronValue.matches]
        rw [beq_eq_false_iff_ne.mpr (by omega : (31 : Nat) ≠ d)]
      simp only [hmd]
      exact ih (d + 1) y (by omega) (by omega)
    · rw [if_neg hv]

theorem feb_findDay_abort (y : Int) (d : Nat) (h : d ≤ 30) :
    findDay feb31Task y 2 d = .abort :=
  feb_scan_abort (31 - d) d y h (by omega)

theorem nv_value2_le (m : Nat) (hm : m ≤ 2) :
    CronValue.next_value (.value 2) m 12 = .val (some 2) := by
  interval_cases m <;> decide

theorem nv_value2_ge (m : Nat) (hm : 3 ≤ m) :
    CronValue.next_value (.value 2) m 12 = .val none := by
  apply next_value_none_of
  intro v h1 h2
  simp only [CronValue.matches]
  rw [beq_eq_false_iff_ne.mpr (by omega : (2 : Nat) ≠ v)]

theorem feb_step_ret (t0 : DateTime) (y : Int) (m d hh mi : Nat)
    (hm : m ≤ 2) (hd : d ≤ 30) :
    stepOnce feb31Task t0 ⟨y, m, d, hh, mi⟩ = .ret none := by
  simp only [stepOnce, feb31Task_month]
  simp only [nv_value2_le m hm]
  simp only [feb_findDay_abort y d hd]

theorem feb_step_notFound (t0 : DateTime) (y : Int) (m d hh mi : Nat)
    (hm : m ≤ 2) (hd : 31 ≤ d) :
    stepOnce feb31Task t0 ⟨y, m, d, hh, mi⟩ = .next ⟨y, 3, 1, 0, 0⟩ := by
  simp only [stepOnce, feb31Task_month]
  simp only [nv_value2_le m hm]
  have h0 : 31 - d = 0 := by omega
  simp only [findDay, h0, findDayGo]

theorem feb_step_rollover (t0 : DateTime) (y : Int) (m d hh mi : Nat)
    (hm : 3 ≤ m) :
    stepOnce feb31Task t0 ⟨y, m, d, hh, mi⟩ = .next ⟨y + 1, 2, 1, 0, 0⟩ := by
  simp only [stepOnce, feb31Task_month]
  simp only [nv_value2_ge m hm]
  simp only [CronValue.min_value]

theorem feb31_go_none (t0 : DateTime) (y : Int) (m d hh mi : Nat) :
    go feb31Task t0 4 ⟨y, m, d, hh, mi⟩ = some (.out none) := by
  by_cases hm3 : 3 ≤ m
  · exact (go_next _ _ _ _ 3 (feb_step_rollover t0 y m d hh mi hm3)).trans
      (go_ret _ _ _ none 2 (feb_step_ret t0 (y + 1) 2 1 0 0 (by norm_num) (by norm_num)))
  · have hm2 : m ≤ 2 := by omega
    by_cases hd : d ≤ 30
    · exact go_ret _ _ _ none 3 (feb_step_ret t0 y m d hh mi hm2 hd)
    · have hd31 : 31 ≤ d := by omega
      exact (go_next _ _ _ _ 3 (feb_step_notFound t0 y m d hh mi hm2 hd31)).trans
        ((go_next _ _ _ _ 2 (feb_step_rollover t0 y 3 1 0 0 (by norm_num))).trans
          (go_ret _ _ _ none 1 (feb_step_ret t0 (y + 1) 2 1 0 0 (by norm_num) (by norm_num))))

theorem task_matches_noCrash (t : CronTask) (dt : DateTime)
    (h : t.noZeroSteps = true) : ∃ b, CronTask.matches t dt = .val b := by
  simp only [CronTask.noZeroSteps, Bool.and_eq_true] at h
  obtain ⟨⟨⟨⟨h1, h2⟩, h3⟩, h4⟩, h5⟩ := h
  have hw := matches_eq_spec t.week_day (weekday dt.year dt.month dt.day) h5
  have hmd := matches_eq_spec t.month_day dt.day h3
  have hho := matches_eq_spec t.hour dt.hour h2
  have hmo := matches_eq_spec t.month dt.month h4
  have hmi := matches_eq_spec t.minute dt.minute h1
  simp only [CronTask.matches, hw]
  cases matchesSpec t.week_day (weekday dt.year dt.month dt.day)
  · exact ⟨false, rfl⟩
  · simp only [hmd]
    cases matchesSpec t.month_day dt.day
    · exact ⟨false, rfl⟩
    · simp only [hho]
      cases matchesSpec t.hour dt.hour
      · exact ⟨false, rfl⟩
      · simp only [hmo]
        cases matchesSpec t.month dt.month
        · exact ⟨false, rfl⟩
        · simp only [hmi]
          exact ⟨matchesSpec t.minute dt.minute, rfl⟩

/-! Claims. -/

/-- C1 (amended): whenever try_next_occurrence(from) returns a timestamp t,
then t is strictly greater than from, t is at minute granularity (seconds
zeroed), and the schedule matches t.  (The original claim's minimality part
fails, see the counterexample: the hour and minute are not reset when a more
significant field advances, so matching timestamps strictly between from and
t can be skipped.) -/
theorem c1_next_occurrence_sound : ∀ (t : CronTask) (t0 : DateTime) (fuel : Nat)
    (d : DateTime), try_next_occurrence t t0 fuel = some (.out (some d)) →
    DateTime.lt t0 d = true ∧ d.second = 0 ∧ CronTask.matches t d = .val true :=
  fun t t0 fuel d h => go_out_some t t0 fuel _ d h

/-- Witness for C1: the all-Any schedule searched from 2024-06-15 12:02:30
returns 2024-06-15 12:03:00, which is strictly later, at second 0, and
matched. -/
theorem c1_next_occurrence_sound_witness :
    try_next_occurrence allTask ⟨2024, 6, 15, 12, 2, 30⟩ 2 =
      some (.out (some ⟨2024, 6, 15, 12, 3, 0⟩)) ∧
    (DateTime.lt ⟨2024, 6, 15, 12, 2, 30⟩ ⟨2024, 6, 15, 12, 3, 0⟩ = true ∧
      (⟨2024, 6, 15, 12, 3, 0⟩ : DateTime).second = 0 ∧
      CronTask.matches allTask ⟨2024, 6, 15, 12, 3, 0⟩ = .val true) :=
  ⟨by decide, c1_next_occurrence_sound allTask ⟨2024, 6, 15, 12, 2, 30⟩ 2
    ⟨2024, 6, 15, 12, 3, 0⟩ (by decide)⟩

/-- C1 counterexample: the returned occurrence is not the earliest.  For the
buildable schedule minute=Single(5), hour=Single(14) (others Any), searching
from 2024-06-15 12:10:00 returns 2024-06-16 14:05:00, yet 2024-06-15
14:05:00 lies strictly between from and the result and is matched by the
schedule. -/
theorem c1_not_earliest_cex :
    CronTask.verify minuteHourTask = true ∧
    try_next_occurrence minuteHourTask ⟨2024, 6, 15, 12, 10, 0⟩ 4 =
      some (.out (some ⟨2024, 6, 16, 14, 5, 0⟩)) ∧
    DateTime.lt ⟨2024, 6, 15, 12, 10, 0⟩ ⟨2024, 6, 15, 14, 5, 0⟩ = true ∧
    DateTime.lt ⟨2024, 6, 15, 14, 5, 0⟩ ⟨2024, 6, 16, 14, 5, 0⟩ = true ∧
    CronTask.matches minuteHourTask ⟨2024, 6, 15, 14, 5, 0⟩ = .val true := by
  decide

/-- C2 counterexample: a schedule whose minute field is Stepped(Any, 0)
passes build (verify is true), yet matches on it panics (crash) on the
modulo by zero, so a later call on a successfully constructed schedule can
fail. -/
theorem c2_panic_after_build_cex :
    CronTask.verify zeroStepTask = true ∧
    CronTask.matches zeroStepTask ⟨2024, 1, 1, 0, 0, 0⟩ = .crash := by
  decide

/-- C2 (amended): for a built schedule all of whose Stepped steps are
nonzero, matches never panics; try_next_occurrence reports an exhausted
search as an explicit None; but the next_occurrence wrapper panics (expect)
in that situation instead of returning it, and a schedule with a zero step
builds and then panics in matches (see the counterexample). -/
theorem c2_validated_schedules_amended :
    (∀ (t : CronTask) (dt : DateTime), t.noZeroSteps = true →
      ∃ b, CronTask.matches t dt = .val b) ∧
    try_next_occurrence feb31Task ⟨2024, 3, 15, 12, 30, 0⟩ 4 = some (.out none) ∧
    next_occurrence feb31Task ⟨2024, 3, 15, 12, 30, 0⟩ 4 = some .crash :=
  ⟨task_matches_noCrash, by decide, by decide⟩

/-- Witness for C2: the all-Any schedule has no zero step and its matches
returns a value. -/
theorem c2_validated_schedules_amended_witness :
    CronTask.noZeroSteps allTask = true ∧
    (∃ b, CronTask.matches allTask ⟨2024, 1, 1, 0, 0, 0⟩ = .val b) :=
  ⟨by decide, c2_validated_schedules_amended.1 allTask ⟨2024, 1, 1, 0, 0, 0⟩ (by decide)⟩

/-- C3: the day scan is bounded by the literal 30 (for d in day..=30), not
by the calendar month length.  At the failing input (buildable schedule
whose day-of-month matches only 31, months Any, from 2024-01-01 00:00:00)
the search returns None: day 31 of the 31-day month January is never a
candidate even though 2024-01-31 00:00:00 is a strictly later matching
timestamp, and the impossible day February 30 is probed, aborting the
search. -/
theorem c3_fixed_day_bound_bug :
    CronTask.verify day31Task = true ∧
    try_next_occurrence day31Task ⟨2024, 1, 1, 0, 0, 0⟩ 3 = some (.out none) ∧
    DateTime.lt ⟨2024, 1, 1, 0, 0, 0⟩ ⟨2024, 1, 31, 0, 0, 0⟩ = true ∧
    CronTask.matches day31Task ⟨2024, 1, 31, 0, 0, 0⟩ = .val true := by
  decide

/-- C4 counterexample: the month literal 12 lies in the documented month
domain [1,13), yet the schedule month=Single(12) (others Any) fails build:
the code checks months against the exclusive bound 12. -/
theorem c4_documented_domain_cex :
    CronTask.verify ⟨.all, .all, .all, .value 12, .all⟩ = false ∧
    (1 ≤ 12 ∧ 12 < 13) := by
  decide

/-- C4 (amended): build succeeds exactly when every field passes the
validator with the code's bounds (exclusive maxima 60, 24, 31, 12, 6 and
minimum 0 for every field): a literal passes iff it is below the maximum
(no minimum check, so month Single(0) is accepted), a Range(lo,hi) passes
iff lo < hi, lo is at least the minimum and hi is at most the maximum, a
Stepped passes iff its step is below the maximum (base unchecked), a List
iff all members pass.  In particular Range(20,5) is rejected under any
bounds and the minute literal 60 is rejected, while month Single(12) and
weekday Single(6) are rejected despite the documented domains. -/
theorem c4_verify_characterization :
    (∀ (c : CronValue) (mn mx : Nat), CronValue.verify c mn mx = fieldOk c mn mx) ∧
    (∀ t : CronTask, CronTask.verify t =
      (fieldOk t.minute 0 60 && fieldOk t.hour 0 24 && fieldOk t.month_day 0 31 &&
        fieldOk t.month 0 12 && fieldOk t.week_day 0 6)) ∧
    (∀ mn mx : Nat, CronValue.verify (.range 20 5) mn mx = false) ∧
    CronValue.verify (.value 60) 0 60 = false ∧
    CronTask.verify ⟨.all, .all, .all, .value 0, .all⟩ = true ∧
    CronTask.verify ⟨.all, .all, .all, .all, .value 6⟩ = false :=
  ⟨verify_eq_fieldOk,
    fun t => by simp only [CronTask.verify, verify_eq_fieldOk],
    fun mn mx => by simp [CronValue.verify],
    by decide, by decide, by decide⟩

/-- C5: for the schedule day-of-month=Single(31), month=Single(2) (others
Any), try_next_occurrence terminates for every starting timestamp and
reports no occurrence: within 4 loop iterations the February day scan hits
an impossible date (Feb 29 or Feb 30) and the search returns None. -/
theorem c5_feb31_terminates_none (t0 : DateTime) :
    try_next_occurrence feb31Task t0 4 = some (.out none) := by
  obtain ⟨y, m, d, hh, mi, sec⟩ := t0
  exact feb31_go_none ⟨y, m, d, hh, mi, sec⟩ y m d hh mi

/-- C6 counterexample: for the zero-step expression Stepped(Any, 0) at
value 0 the structural reference says it matches (0 % 0 = 0), but the code
panics on the modulo by zero instead of returning that verdict, so matching
does not equal the reference definition for every expression. -/
theorem c6_zero_step_cex :
    matchesSpec (.interval .all 0) 0 = true ∧
    CronValue.matches (.interval .all 0) 0 = .crash := by
  decide

/-- C6 (amended): for every field expression all of whose Stepped steps are
nonzero and every value v, matching equals the structural reference
definition: Any matches every v; Single(u) exactly v = u; Range(lo,hi)
exactly lo <= v <= hi; List exactly when some item matches (empty list
matches nothing); Stepped(Any,k) exactly v % k = 0; Stepped(Range(lo,hi),k)
exactly v in [lo,hi] and (v-lo) % k = 0; Stepped(Single(u),k) exactly v = u
and v % k = 0; Stepped over a List exactly when Stepped(item,k) matches for
some item. -/
theorem c6_matches_reference : ∀ (c : CronValue) (v : Nat),
    c.noZeroStep = true → c.matches v = .val (matchesSpec c v) :=
  matches_eq_spec

/-- Witness for C6: the stepped range 10-20/5 has nonzero steps and matches
agrees with the reference at 15. -/
theorem c6_matches_reference_witness :
    CronValue.noZeroStep (.interval (.range 10 20) 5) = true ∧
    CronValue.matches (.interval (.range 10 20) 5) 15 =
      .val (matchesSpec (.interval (.range 10 20) 5) 15) :=
  ⟨by decide, c6_matches_reference (.interval (.range 10 20) 5) 15 (by decide)⟩

/-- C7 counterexample: validation does not recurse into a Stepped base: a
Stepped whose base is itself Stepped passes verify, and so does a Stepped
whose base holds the out-of-bound literal 99. -/
theorem c7_nested_stepped_cex :
    CronValue.verify (.interval (.interval .all 3) 5) 0 60 = true ∧
    CronValue.verify (.interval (.value 99) 5) 0 60 = true := by
  decide

/-- C7 (amended): validation of a Stepped expression checks only that the
step value lies below the field's exclusive maximum; the base expression is
not validated at all, so in particular a Stepped over a Stepped passes
validation. -/
theorem c7_step_only_amended : ∀ (base : CronValue) (s mn mx : Nat),
    CronValue.verify (.interval base s) mn mx = decide (s < mx) :=
  fun _ _ _ _ => rfl

/-- C8 counterexample: min_value is not the smallest matched value.  For
Stepped(Range(10,20), 4), 10 is matched, min_value is Some 8, yet 8 is not
matched (the claim requires min_value to be a matched value whenever the
expression matches anything). -/
theorem c8_min_value_cex :
    CronValue.matches (.interval (.range 10 20) 4) 10 = .val true ∧
    CronValue.min_value (.interval (.range 10 20) 4) = .val (some 8) ∧
    CronValue.matches (.interval (.range 10 20) 4) 8 = .val false := by
  decide

/-- C8 (amended): for an expression all of whose Stepped steps are nonzero,
min_value is a lower bound on every matched value: whenever matches(v)
holds, min_value is Some m with m <= v; and for Stepped(base,step) the
result equals base.min_value() rounded down to the nearest multiple of
step.  The returned minimum need not itself be matched (counterexample). -/
theorem c8_min_value_lower_bound :
    (∀ (c : CronValue) (v : Nat), c.noZeroStep = true → c.matches v = .val true →
      ∃ m, c.min_value = .val (some m) ∧ m ≤ v) ∧
    (∀ (base : CronValue) (s m : Nat), s ≠ 0 → base.min_value = .val (some m) →
      CronValue.min_value (.interval base s) = .val (some (m - m % s))) :=
  ⟨matches_min_le, fun base s m hs h => interval_min_eq base s m hs h⟩

/-- Witness for C8: Range(3,9) matches 5 and its min_value 3 is a lower
bound; Stepped(Range(10,20), 4) has minimum 10 - 10 % 4 = 8. -/
theorem c8_min_value_lower_bound_witness :
    (CronValue.noZeroStep (.range 3 9) = true ∧
      CronValue.matches (.range 3 9) 5 = .val true ∧
      ∃ m, CronValue.min_value (.range 3 9) = .val (some m) ∧ m ≤ 5) ∧
    ((4 : Nat) ≠ 0 ∧ CronValue.min_value (.range 10 20) = .val (some 10) ∧
      CronValue.min_value (.interval (.range 10 20) 4) = .val (some (10 - 10 % 4))) :=
  ⟨⟨by decide, by decide,
      c8_min_value_lower_bound.1 (.range 3 9) 5 (by decide) (by decide)⟩,
    ⟨by decide, by decide,
      c8_min_value_lower_bound.2 (.range 10 20) 4 10 (by decide) (by decide)⟩⟩

/-- C9: verify never rejects a zero step: Interval(base, 0) verifies under
every positive field bound, a whole schedule containing Stepped(Any, 0)
passes build, and matches on Stepped(Any, 0) then reaches the modulo by
zero (crash) for every value, so the panic is reachable through the public
interface after successful construction. -/
theorem c9_zero_step_reachable : ∀ (base : CronValue) (mn mx v : Nat), 0 < mx →
    CronValue.verify (.interval base 0) mn mx = true ∧
    CronValue.matches (.interval .all 0) v = .crash ∧
    CronTask.verify zeroStepTask = true := by
  intro base mn mx v h
  refine ⟨?_, rfl, by decide⟩
  simp only [CronValue.verify]
  exact decide_eq_true h

/-- Witness for C9: bound 60 is positive and the conclusion holds at
base = Any, value 7. -/
theorem c9_zero_step_reachable_witness :
    0 < 60 ∧
    (CronValue.verify (.interval .all 0) 0 60 = true ∧
      CronValue.matches (.interval .all 0) 7 = .crash ∧
      CronTask.verify zeroStepTask = true) :=
  ⟨by decide, c9_zero_step_reachable .all 0 60 7 (by decide)⟩

/-- C10: an invalid date probed by the day scan makes try_next_occurrence
return None for the whole search.  Concretely: for the all-Any schedule
(which is buildable and matches every timestamp, e.g. 2025-01-01 00:00:00,
strictly after the origin) searching from 2024-12-31 23:59:00 rolls into
the next year, resets the month to min_value = 0 of the Any month field,
probes the invalid month-0 date and returns None immediately. -/
theorem c10_invalid_date_aborts :
    try_next_occurrence allTask ⟨2024, 12, 31, 23, 59, 0⟩ 3 = some (.out none) ∧
    CronValue.min_value CronValue.all = .val (some 0) ∧
    CronTask.verify allTask = true ∧
    CronTask.matches allTask ⟨2025, 1, 1, 0, 0, 0⟩ = .val true ∧
    DateTime.lt ⟨2024, 12, 31, 23, 59, 0⟩ ⟨2025, 1, 1, 0, 0, 0⟩ = true := by
  decide
